import Mathlib

/-!
Verification of the recursive chunk-and-reduce summarizer in
`deployment/summarizer.py` and `deployment/summarizer_showcase.py`.

Texts are modelled as `List Char` (Python `str`).  Python's `s.split()`
(split on runs of whitespace, dropping empty tokens) is embedded as
`pySplit`, so `len(s.split())` becomes `wordCount`.  Python's
`" ".join(xs)` becomes `joinSep`.  The external sentence-boundary
capability (`nltk.sent_tokenize`) and the generation capability
(tokenize / `model.generate` / decode) are parameters of the embedded
functions.  Python `int` thresholds and word counts are naturals: every
value the code uses for them is a length or a non-negative literal.
Since Python's recursion gives no termination guarantee, the recursive
controller is indexed by fuel and returns `none` when fuel runs out.
-/

/-- A Python string, modelled as its character list. -/
abbrev Str := List Char

/-- Worker for Python `str.split()`: scans the text, `acc` holds the
(reversed) word being built. -/
def wordsGo : List Char → List Char → List (List Char)
  | [], acc => if acc = [] then [] else [acc.reverse]
  | c :: cs, acc =>
    if c.isWhitespace then
      (if acc = [] then wordsGo cs [] else acc.reverse :: wordsGo cs [])
    else wordsGo cs (c :: acc)

/-- Python `s.split()` with no argument: split on runs of whitespace,
empty tokens dropped. -/
def pySplit (s : Str) : List Str := wordsGo s []

/-- Python `len(s.split())`: the whitespace-token word count used
throughout `summarizer.py`. -/
def wordCount (s : Str) : ℕ := (pySplit s).length

/-- Python `" ".join(xs)`. -/
def joinSep : List Str → Str
  | [] => []
  | s :: ss =>
    match ss with
    | [] => s
    | _ :: _ => s ++ ' ' :: joinSep ss

/-- Total word count of a list of strings. -/
def wcSum (l : List Str) : ℕ := (l.map wordCount).sum

/-- The loop of `Summarizer.chunk_sentences` (summarizer.py lines 84-103,
summarizer_showcase.py lines 36-45): `current` is `current_chunk`,
`count` is `current_word_count`; emitted chunks are produced in order.
After the loop the running chunk is emitted iff its count reaches
`minW`. -/
def chunkLoop (maxW minW : ℕ) : List Str → List Str → ℕ → List Str
  | [], current, count => if minW ≤ count then [joinSep current] else []
  | s :: ss, current, count =>
    if count + wordCount s ≤ maxW then
      chunkLoop maxW minW ss (current ++ [s]) (count + wordCount s)
    else
      (if minW ≤ count then [joinSep current] else []) ++
        chunkLoop maxW minW ss [s] (wordCount s)

/-- `Summarizer.chunk_sentences`, parameterised by the word bounds as in
summarizer_showcase.py; summarizer.py uses the literals `maxW = 300`,
`minW = 75`. -/
def chunk_sentences (maxW minW : ℕ) (sentences : List Str) : List Str :=
  chunkLoop maxW minW sentences [] 0

-- sanity checks of the embedding on concrete inputs
example : pySplit " a  bc ".toList = ["a".toList, "bc".toList] := by decide
example : wordCount "".toList = 0 := by decide
example : joinSep ["a".toList, "b".toList] = "a b".toList := by decide
example : chunk_sentences 5 3 ["a b".toList, "c d e".toList] =
    ["a b c d e".toList] := by decide
example : chunk_sentences 5 3 ["a b".toList] = [] := by decide

/-- One call to the generation capability as assembled by
`Summarizer.model_summarize` (summarizer.py lines 44-59): the prompt
string handed to the tokenizer together with the keyword values passed
to `model.generate`.  `temperature` and `top_p` are Python floats that
are only passed through, embedded as rationals. -/
structure GenCall where
  input : Str
  max_length : ℕ
  min_length : ℕ
  num_beams : ℕ
  temperature : ℚ
  top_k : ℕ
  top_p : ℚ
  do_sample : Bool
  early_stopping : Bool

/-- The `GenCall` built by `Summarizer.model_summarize` in summarizer.py
from its arguments: the prompt is `"summarize : " + text_chunk`
(line 44), and `model.generate` receives `max_length=max_length` but the
literal `min_length=30` (line 52), ignoring the `min_length` parameter;
`do_sample=True` and `early_stopping=True` are fixed. -/
def model_summarize_call (text_chunk : Str) (max_length min_length num_beams : ℕ)
    (temperature : ℚ) (top_k : ℕ) (top_p : ℚ) : GenCall :=
  ⟨"summarize : ".toList ++ text_chunk, max_length, 30, num_beams,
    temperature, top_k, top_p, true, true⟩

/-- `Summarizer.model_summarize` (summarizer.py lines 29-63): delegates
to the external generation capability `gen` (tokenizer + `generate` +
decode) on the assembled call. -/
def model_summarize (gen : GenCall → Str) (text_chunk : Str)
    (max_length min_length num_beams : ℕ)
    (temperature : ℚ) (top_k : ℕ) (top_p : ℚ) : Str :=
  gen (model_summarize_call text_chunk max_length min_length num_beams
    temperature top_k top_p)

/-- Default argument values of `model_summarize` in summarizer.py
(lines 29-35): `max_length=200, min_length=30, num_beams=4,
temperature=0.3, top_k=50, top_p=0.95`. -/
def default_max_length : ℕ := 200

def default_min_length : ℕ := 30

def default_num_beams : ℕ := 4

def default_temperature : ℚ := 3 / 10

def default_top_k : ℕ := 50

def default_top_p : ℚ := 95 / 100

/-- The generation call made for one chunk by
`Summarizer.recursive_summarize` (summarizer.py line 126):
`self.model_summarize(chunk)` leaves every keyword at its default. -/
def summarizer_gen_call (chunk : Str) : GenCall :=
  model_summarize_call chunk default_max_length default_min_length
    default_num_beams default_temperature default_top_k default_top_p

/-- `Summarizer.recursive_summarize` (summarizer.py lines 108-141),
fuel-indexed.  `split` is `self.split_into_sentences`
(`nltk.sent_tokenize`), `model` is `self.model_summarize` applied to a
chunk.  The chunk bounds are the literals 300 and 75 of
`chunk_sentences` in this file of the source. -/
def recursive_summarize (split : Str → List Str) (model : Str → Str)
    (threshold : ℕ) : ℕ → Str → Option Str
  | 0, _ => none
  | fuel + 1, text =>
    if wordCount text ≤ threshold then some text
    else
      let sentences := split text
      if sentences.isEmpty then some text
      else
        let chunks := chunk_sentences 300 75 sentences
        let summaries := chunks.map model
        let combined_summary := joinSep summaries
        let summary_sentences := split combined_summary
        if summary_sentences.length = 1 then some combined_summary
        else if threshold < wordCount combined_summary then
          recursive_summarize split model threshold fuel combined_summary
        else some combined_summary

/-- Instrumented twin of `recursive_summarize` that also records, in
order, every chunk passed to the generation capability `model`.  It is
related to the plain controller by `recursive_summarize_eq_trace`. -/
def recursive_summarize_trace (split : Str → List Str) (model : Str → Str)
    (threshold : ℕ) : ℕ → Str → Option (Str × List Str)
  | 0, _ => none
  | fuel + 1, text =>
    if wordCount text ≤ threshold then some (text, [])
    else
      let sentences := split text
      if sentences.isEmpty then some (text, [])
      else
        let chunks := chunk_sentences 300 75 sentences
        let summaries := chunks.map model
        let combined_summary := joinSep summaries
        let summary_sentences := split combined_summary
        if summary_sentences.length = 1 then some (combined_summary, chunks)
        else if threshold < wordCount combined_summary then
          match recursive_summarize_trace split model threshold fuel combined_summary with
          | none => none
          | some (r, calls) => some (r, chunks ++ calls)
        else some (combined_summary, chunks)

/-- `Summarizer.iterative_summarization` (summarizer.py lines 143-148):
an alias for `recursive_summarize`; the source default for `threshold`
is 75. -/
def iterative_summarization (split : Str → List Str) (model : Str → Str)
    (fuel : ℕ) (text : Str) (threshold : ℕ) : Option Str :=
  recursive_summarize split model threshold fuel text

/-- The full summarizer.py pipeline: `recursive_summarize` with the
generation capability invoked through `model_summarize` at its default
arguments, exactly as on line 126 of the source. -/
def recursive_summarize_full (split : Str → List Str) (gen : GenCall → Str)
    (threshold fuel : ℕ) (text : Str) : Option Str :=
  recursive_summarize split
    (fun chunk => model_summarize gen chunk default_max_length
      default_min_length default_num_beams default_temperature
      default_top_k default_top_p)
    threshold fuel text

/-- `Summarizer.recursive_summarize` of summarizer_showcase.py
(lines 48-61), fuel-indexed.  It differs from summarizer.py: the chunk
floor is the showcase default `min_words=50`, `max_length`/`min_length`
are threaded to `model`, there is no guard for an empty sentence
sequence, and the stop test is a single disjunction. -/
def showcase_recursive_summarize (split : Str → List Str)
    (model : Str → ℕ → ℕ → Str) (max_length min_length threshold : ℕ) :
    ℕ → Str → Option Str
  | 0, _ => none
  | fuel + 1, text =>
    if wordCount text ≤ threshold then some text
    else
      let sentences := split text
      let chunks := chunk_sentences 300 50 sentences
      let summaries := chunks.map (fun chunk => model chunk max_length min_length)
      let combined := joinSep summaries
      if (split combined).length = 1 ∨ wordCount combined ≤ threshold then
        some combined
      else
        showcase_recursive_summarize split model max_length min_length threshold
          fuel combined

/-- `Summarizer.iterative_summarization` of summarizer_showcase.py
(lines 63-65): calls the recursive controller with
`threshold = min_length`; source defaults are `max_length=150`,
`min_length=30`. -/
def showcase_iterative_summarization (split : Str → List Str)
    (model : Str → ℕ → ℕ → Str) (fuel : ℕ) (text : Str)
    (max_length min_length : ℕ) : Option Str :=
  showcase_recursive_summarize split model max_length min_length min_length
    fuel text

-- sanity: base case and degenerate-chunking behaviour on tiny inputs
example : recursive_summarize (fun t => [t]) (fun s => s) 5 3 "a b".toList =
    some "a b".toList := by decide
example : recursive_summarize (fun t => if t = [] then [] else [t])
    (fun s => s) 1 3 "a b".toList = some [] := by decide

/-! ### Word counting lemmas -/

theorem wordsGo_append_space (a b : List Char) : ∀ acc,
    wordsGo (a ++ ' ' :: b) acc = wordsGo a acc ++ wordsGo b [] := by
  induction a with
  | nil =>
    intro acc
    have hws : (' ' : Char).isWhitespace = true := by decide
    by_cases h : acc = [] <;> simp [wordsGo, hws, h]
  | cons c cs ih =>
    intro acc
    by_cases hw : c.isWhitespace
    · by_cases h : acc = [] <;> simp [wordsGo, hw, h, ih]
    · simp [wordsGo, hw, ih]

theorem pySplit_append_space (a b : Str) :
    pySplit (a ++ ' ' :: b) = pySplit a ++ pySplit b :=
  wordsGo_append_space a b []

theorem wordCount_append_space (a b : Str) :
    wordCount (a ++ ' ' :: b) = wordCount a + wordCount b := by
  simp [wordCount, pySplit_append_space]

theorem wcSum_cons (s : Str) (l : List Str) :
    wcSum (s :: l) = wordCount s + wcSum l := by
  simp [wcSum]

theorem wcSum_append (a b : List Str) : wcSum (a ++ b) = wcSum a + wcSum b := by
  simp [wcSum]

/-- A single-space join has exactly the total word count of its pieces:
Python `len(" ".join(l).split()) == sum(len(x.split()) for x in l)`. -/
theorem wordCount_joinSep (l : List Str) : wordCount (joinSep l) = wcSum l := by
  induction l with
  | nil => rfl
  | cons s ss ih =>
    cases ss with
    | nil => simp [joinSep, wcSum]
    | cons t ts =>
      rw [show joinSep (s :: t :: ts) = s ++ ' ' :: joinSep (t :: ts) from rfl,
        wordCount_append_space, ih, wcSum_cons s (t :: ts), wcSum_cons t ts]

theorem wcSum_sublist {a b : List Str} (h : List.Sublist a b) :
    wcSum a ≤ wcSum b := by
  induction h with
  | slnil => exact le_rfl
  | cons x _ ih => rw [wcSum_cons]; omega
  | cons₂ x _ ih => rw [wcSum_cons, wcSum_cons]; omega

theorem wcSum_map_joinSep (L : List (List Str)) :
    wcSum (L.map joinSep) = wcSum L.flatten := by
  induction L with
  | nil => rfl
  | cons g L ih =>
    rw [List.map_cons, wcSum_cons, wordCount_joinSep, List.flatten_cons,
      wcSum_append, ih]

theorem le_wcSum_of_min {m : ℕ} {l : List Str}
    (h : ∀ x ∈ l, m ≤ wordCount x) : m * l.length ≤ wcSum l := by
  induction l with
  | nil => simp [wcSum]
  | cons s l ih =>
    rw [wcSum_cons, List.length_cons, Nat.mul_succ]
    have h1 := h s (List.mem_cons_self s l)
    have h2 := ih fun x hx => h x (List.mem_cons_of_mem _ hx)
    omega

theorem wcSum_map_const (l : List Str) (s : Str) :
    wcSum (l.map fun _ => s) = l.length * wordCount s := by
  induction l with
  | nil => simp [wcSum]
  | cons t l ih => rw [List.map_cons, wcSum_cons, ih, List.length_cons]; ring

/-! ### Chunking lemmas

All loop lemmas carry the loop invariant `count = wcSum current`
relating the word counter of the source to the running chunk. -/

theorem chunkLoop_min (maxW minW : ℕ) : ∀ (ss current : List Str) (count : ℕ),
    count = wcSum current →
    ∀ chunk ∈ chunkLoop maxW minW ss current count, minW ≤ wordCount chunk := by
  intro ss
  induction ss with
  | nil =>
    intro current count hcount chunk hmem
    simp only [chunkLoop] at hmem
    by_cases h : minW ≤ count
    · rw [if_pos h] at hmem
      rw [List.mem_singleton] at hmem
      subst hmem
      rw [wordCount_joinSep, ← hcount]
      exact h
    · rw [if_neg h] at hmem
      cases hmem
  | cons s ss ih =>
    intro current count hcount chunk hmem
    simp only [chunkLoop] at hmem
    by_cases hfit : count + wordCount s ≤ maxW
    · rw [if_pos hfit] at hmem
      exact ih (current ++ [s]) (count + wordCount s)
        (by rw [wcSum_append, ← hcount, wcSum_cons]; simp [wcSum]) chunk hmem
    · rw [if_neg hfit] at hmem
      rcases List.mem_append.1 hmem with h1 | h2
      · by_cases hemit : minW ≤ count
        · rw [if_pos hemit, List.mem_singleton] at h1
          subst h1
          rw [wordCount_joinSep, ← hcount]
          exact hemit
        · rw [if_neg hemit] at h1
          cases h1
      · exact ih [s] (wordCount s) (by simp [wcSum]) chunk h2

theorem chunkLoop_le_max (maxW minW : ℕ) : ∀ (ss current : List Str) (count : ℕ),
    count = wcSum current →
    (count ≤ maxW ∨ ∃ s, current = [s] ∧ maxW < wordCount s) →
    ∀ chunk ∈ chunkLoop maxW minW ss current count,
      wordCount chunk ≤ maxW ∨ ∃ s ∈ current ++ ss, chunk = s ∧ maxW < wordCount s := by
  intro ss
  induction ss with
  | nil =>
    intro current count hcount hcur chunk hmem
    simp only [chunkLoop] at hmem
    by_cases h : minW ≤ count
    · rw [if_pos h, List.mem_singleton] at hmem
      subst hmem
      rcases hcur with hle | ⟨s, rfl, hover⟩
      · left; rw [wordCount_joinSep, ← hcount]; exact hle
      · right; exact ⟨s, by simp, rfl, hover⟩
    · rw [if_neg h] at hmem
      cases hmem
  | cons s ss ih =>
    intro current count hcount hcur chunk hmem
    simp only [chunkLoop] at hmem
    by_cases hfit : count + wordCount s ≤ maxW
    · rw [if_pos hfit] at hmem
      have := ih (current ++ [s]) (count + wordCount s)
        (by rw [wcSum_append, ← hcount, wcSum_cons]; simp [wcSum])
        (Or.inl hfit) chunk hmem
      rcases this with hle | ⟨t, hmemt, rfl, hover⟩
      · exact Or.inl hle
      · right
        refine ⟨chunk, ?_, rfl, hover⟩
        rwa [List.append_cons]
    · rw [if_neg hfit] at hmem
      rcases List.mem_append.1 hmem with h1 | h2
      · by_cases hemit : minW ≤ count
        · rw [if_pos hemit, List.mem_singleton] at h1
          subst h1
          rcases hcur with hle | ⟨t, rfl, hover⟩
          · left; rw [wordCount_joinSep, ← hcount]; exact hle
          · right; exact ⟨t, List.mem_append_left _ (by simp), rfl, hover⟩
        · rw [if_neg hemit] at h1
          cases h1
      · have hcur' : wordCount s ≤ maxW ∨ ∃ t, [s] = [t] ∧ maxW < wordCount t := by
          by_cases hs : wordCount s ≤ maxW
          · exact Or.inl hs
          · exact Or.inr ⟨s, rfl, by omega⟩
        have := ih [s] (wordCount s) (by simp [wcSum]) hcur' chunk h2
        rcases this with hle | ⟨t, hmemt, rfl, hover⟩
        · exact Or.inl hle
        · right
          refine ⟨chunk, List.mem_append_right _ ?_, rfl, hover⟩
          simpa using hmemt

theorem chunkLoop_stuck (maxW minW : ℕ) : ∀ (ss current : List Str) (count : ℕ),
    maxW < count → minW ≤ count →
    joinSep current ∈ chunkLoop maxW minW ss current count := by
  intro ss
  induction ss with
  | nil =>
    intro current count h1 h2
    simp [chunkLoop, h2]
  | cons s ss ih =>
    intro current count h1 h2
    have hfit : ¬ count + wordCount s ≤ maxW := by omega
    simp only [chunkLoop, if_neg hfit, if_pos h2]
    exact List.mem_append_left _ (by simp)

/-- A sentence longer than `maxW` words is still emitted, alone and
unsplit, as its own chunk (it can never be joined by another sentence,
and it always clears the `minW` floor). -/
theorem chunkLoop_oversized_mem (maxW minW : ℕ) (hmm : minW ≤ maxW) :
    ∀ (ss current : List Str) (count : ℕ) (s : Str),
    s ∈ ss → maxW < wordCount s →
    s ∈ chunkLoop maxW minW ss current count := by
  intro ss
  induction ss with
  | nil => intro _ _ s h; cases h
  | cons t ts ih =>
    intro current count s hmem hover
    rcases List.mem_cons.1 hmem with rfl | htail
    · have hfit : ¬ count + wordCount s ≤ maxW := by omega
      simp only [chunkLoop, if_neg hfit]
      apply List.mem_append_right
      have hstd := chunkLoop_stuck maxW minW ts [s] (wordCount s) hover (by omega)
      simpa [joinSep] using hstd
    · by_cases hfit : count + wordCount t ≤ maxW
      · simp only [chunkLoop, if_pos hfit]
        exact ih _ _ s htail hover
      · simp only [chunkLoop, if_neg hfit]
        exact List.mem_append_right _ (ih _ _ s htail hover)

/-- The emitted chunks are joins of groups of input sentences, and
those groups, read in order, form an order-preserving subsequence of
the input sentence sequence. -/
theorem chunkLoop_groups (maxW minW : ℕ) : ∀ (ss current : List Str) (count : ℕ),
    ∃ groups : List (List Str),
      chunkLoop maxW minW ss current count = groups.map joinSep ∧
      List.Sublist groups.flatten (current ++ ss) := by
  intro ss
  induction ss with
  | nil =>
    intro current count
    by_cases h : minW ≤ count
    · exact ⟨[current], by simp [chunkLoop, h], by simp⟩
    · exact ⟨[], by simp [chunkLoop, h], by simp⟩
  | cons s ss ih =>
    intro current count
    by_cases hfit : count + wordCount s ≤ maxW
    · obtain ⟨groups, heq, hsub⟩ := ih (current ++ [s]) (count + wordCount s)
      refine ⟨groups, by simp [chunkLoop, hfit, heq], ?_⟩
      rwa [List.append_cons]
    · obtain ⟨groups, heq, hsub⟩ := ih [s] (wordCount s)
      by_cases hemit : minW ≤ count
      · refine ⟨current :: groups, ?_, ?_⟩
        · simp [chunkLoop, hfit, hemit, heq]
        · rw [List.flatten_cons]
          exact hsub.append_left current
      · refine ⟨groups, by simp [chunkLoop, hfit, hemit, heq], ?_⟩
        exact hsub.trans (List.sublist_append_right current (s :: ss))

theorem chunk_sentences_min (maxW minW : ℕ) (ss : List Str) :
    ∀ chunk ∈ chunk_sentences maxW minW ss, minW ≤ wordCount chunk :=
  chunkLoop_min maxW minW ss [] 0 rfl

theorem chunk_sentences_groups (maxW minW : ℕ) (ss : List Str) :
    ∃ groups : List (List Str),
      chunk_sentences maxW minW ss = groups.map joinSep ∧
      List.Sublist groups.flatten ss := by
  obtain ⟨g, h1, h2⟩ := chunkLoop_groups maxW minW ss [] 0
  exact ⟨g, h1, by simpa using h2⟩

theorem chunk_sentences_wcSum_le (maxW minW : ℕ) (ss : List Str) :
    wcSum (chunk_sentences maxW minW ss) ≤ wcSum ss := by
  obtain ⟨g, h1, h2⟩ := chunk_sentences_groups maxW minW ss
  rw [h1, wcSum_map_joinSep]
  exact wcSum_sublist h2

/-! ### One recursion level of summarizer.py -/

/-- The chunks built at one level of `recursive_summarize`
(summarizer.py line 124). -/
def levelChunks (split : Str → List Str) (text : Str) : List Str :=
  chunk_sentences 300 75 (split text)

/-- The `combined_summary` of one level of `recursive_summarize`
(summarizer.py lines 126-127): per-chunk summaries in chunk order,
joined by single spaces. -/
def levelCombined (split : Str → List Str) (model : Str → Str) (text : Str) : Str :=
  joinSep ((levelChunks split text).map model)

/-- The `combined` of one level of the showcase `recursive_summarize`
(summarizer_showcase.py lines 53-58). -/
def showcase_levelCombined (split : Str → List Str) (model : Str → ℕ → ℕ → Str)
    (max_length min_length : ℕ) (text : Str) : Str :=
  joinSep ((chunk_sentences 300 50 (split text)).map
    fun chunk => model chunk max_length min_length)

theorem recursive_summarize_succ (split : Str → List Str) (model : Str → Str)
    (threshold fuel : ℕ) (text : Str) :
    recursive_summarize split model threshold (fuel + 1) text =
      if wordCount text ≤ threshold then some text
      else if (split text).isEmpty then some text
      else if (split (levelCombined split model text)).length = 1 then
        some (levelCombined split model text)
      else if threshold < wordCount (levelCombined split model text) then
        recursive_summarize split model threshold fuel (levelCombined split model text)
      else some (levelCombined split model text) := rfl

theorem recursive_summarize_trace_succ (split : Str → List Str) (model : Str → Str)
    (threshold fuel : ℕ) (text : Str) :
    recursive_summarize_trace split model threshold (fuel + 1) text =
      if wordCount text ≤ threshold then some (text, [])
      else if (split text).isEmpty then some (text, [])
      else if (split (levelCombined split model text)).length = 1 then
        some (levelCombined split model text, levelChunks split text)
      else if threshold < wordCount (levelCombined split model text) then
        match recursive_summarize_trace split model threshold fuel
            (levelCombined split model text) with
        | none => none
        | some (r, calls) => some (r, levelChunks split text ++ calls)
      else some (levelCombined split model text, levelChunks split text) := rfl

theorem showcase_recursive_summarize_succ (split : Str → List Str)
    (model : Str → ℕ → ℕ → Str) (max_length min_length threshold fuel : ℕ)
    (text : Str) :
    showcase_recursive_summarize split model max_length min_length threshold
        (fuel + 1) text =
      if wordCount text ≤ threshold then some text
      else if (split (showcase_levelCombined split model max_length min_length text)).length = 1 ∨
          wordCount (showcase_levelCombined split model max_length min_length text) ≤ threshold then
        some (showcase_levelCombined split model max_length min_length text)
      else
        showcase_recursive_summarize split model max_length min_length threshold
          fuel (showcase_levelCombined split model max_length min_length text) := rfl

/-- The plain controller is the first component of the instrumented one:
the instrumentation only records the chunks handed to the generation
capability. -/
theorem recursive_summarize_eq_trace (split : Str → List Str) (model : Str → Str)
    (threshold : ℕ) : ∀ (fuel : ℕ) (text : Str),
    recursive_summarize split model threshold fuel text =
      (recursive_summarize_trace split model threshold fuel text).map Prod.fst := by
  intro fuel
  induction fuel with
  | zero => intro text; rfl
  | succ fuel ih =>
    intro text
    rw [recursive_summarize_succ, recursive_summarize_trace_succ]
    by_cases h1 : wordCount text ≤ threshold
    · simp [h1]
    · rw [if_neg h1, if_neg h1]
      by_cases h2 : (split text).isEmpty
      · simp [h2]
      · rw [if_neg h2, if_neg h2]
        by_cases h3 : (split (levelCombined split model text)).length = 1
        · simp [h3]
        · rw [if_neg h3, if_neg h3]
          by_cases h4 : threshold < wordCount (levelCombined split model text)
          · rw [if_pos h4, if_pos h4, ih]
            cases recursive_summarize_trace split model threshold fuel
                (levelCombined split model text) with
            | none => rfl
            | some p => cases p with | mk r calls => rfl
          · simp [h4]

/-! ### Claims -/

/-- A simple instance of the sentence-splitting capability used in the
concrete checks below: the whole text is one sentence, and empty input
yields no sentences (as `nltk.sent_tokenize` does). -/
def oneSentenceSplit (t : Str) : List Str := if t = [] then [] else [t]

/-- C1: for every text whose whitespace-token word count is at most
`threshold` (including the empty string, for any threshold), both
`recursive_summarize` / `iterative_summarization` of summarizer.py and
the showcase `recursive_summarize` return the input text unchanged,
character for character, and the generation capability is never
invoked (the recorded call trace is empty). -/
theorem claim_C1 (split : Str → List Str) (model : Str → Str)
    (smodel : Str → ℕ → ℕ → Str) (threshold max_length min_length fuel : ℕ)
    (text : Str) (h : wordCount text ≤ threshold) :
    recursive_summarize_trace split model threshold (fuel + 1) text =
      some (text, []) ∧
    iterative_summarization split model (fuel + 1) text threshold = some text ∧
    showcase_recursive_summarize split smodel max_length min_length threshold
      (fuel + 1) text = some text := by
  refine ⟨?_, ?_, ?_⟩
  · rw [recursive_summarize_trace_succ, if_pos h]
  · rw [iterative_summarization, recursive_summarize_succ, if_pos h]
  · rw [showcase_recursive_summarize_succ, if_pos h]

theorem claim_C1_witness :
    recursive_summarize_trace (fun t => [t]) (fun s => s) 0 1 [] = some ([], []) ∧
    iterative_summarization (fun t => [t]) (fun s => s) 1 [] 0 = some [] ∧
    showcase_recursive_summarize (fun t => [t]) (fun _ _ _ => []) 150 30 0 1 [] =
      some [] :=
  claim_C1 (fun t => [t]) (fun s => s) (fun _ _ _ => []) 0 150 30 0 [] (by decide)

/-- C2 counterexample: an input above the threshold whose sentences all
fall below the `min_words` floor, so the chunk sequence is empty.  The
claim says `recursive_summarize` then returns the pre-recursion text
unchanged; in fact it returns the empty string (the join of zero
summaries), which differs from the input. -/
theorem claim_C2_counterexample :
    1 < wordCount "a b".toList ∧
    chunk_sentences 300 75 (oneSentenceSplit "a b".toList) = [] ∧
    recursive_summarize oneSentenceSplit (fun s => s) 1 5 "a b".toList =
      some [] ∧
    ([] : Str) ≠ "a b".toList :=
  ⟨by decide, by decide, by decide, by decide⟩

/-- C2 (amended): when the input is above the threshold, the splitter
returns sentences, and chunk building yields the empty chunk sequence,
`recursive_summarize` neither crashes nor loops and makes no generation
call, but it returns the empty string — the single-space join of zero
chunk summaries — not the pre-recursion text.  (The hypothesis
`split [] = []` is the splitter contract on empty input, satisfied by
`nltk.sent_tokenize`.) -/
theorem claim_C2 (split : Str → List Str) (model : Str → Str)
    (threshold fuel : ℕ) (text : Str)
    (hbig : threshold < wordCount text) (hne : split text ≠ [])
    (hchunks : chunk_sentences 300 75 (split text) = [])
    (hsplit_nil : split [] = []) :
    recursive_summarize split model threshold (fuel + 1) text = some [] ∧
    recursive_summarize_trace split model threshold (fuel + 1) text =
      some ([], []) := by
  have hcomb : levelCombined split model text = [] := by
    rw [levelCombined, levelChunks, hchunks]
    rfl
  have hE : (split text).isEmpty = false := by
    cases hs : split text with
    | nil => exact absurd hs hne
    | cons a l => rfl
  have hlen : ¬ (split (levelCombined split model text)).length = 1 := by
    rw [hcomb, hsplit_nil]
    decide
  have hwc : ¬ threshold < wordCount (levelCombined split model text) := by
    rw [hcomb, show wordCount ([] : Str) = 0 from rfl]
    omega
  constructor
  · rw [recursive_summarize_succ, if_neg (not_le.2 hbig)]
    simp only [hE, Bool.false_eq_true, if_false]
    rw [if_neg hlen, if_neg hwc, hcomb]
  · rw [recursive_summarize_trace_succ, if_neg (not_le.2 hbig)]
    simp only [hE, Bool.false_eq_true, if_false]
    rw [if_neg hlen, if_neg hwc, hcomb, levelChunks, hchunks]

theorem claim_C2_witness :
    recursive_summarize oneSentenceSplit (fun s => s) 1 1 "a b".toList =
      some [] ∧
    recursive_summarize_trace oneSentenceSplit (fun s => s) 1 1 "a b".toList =
      some ([], []) :=
  claim_C2 oneSentenceSplit (fun s => s) 1 0 "a b".toList (by decide)
    (by decide) (by decide) (by decide)

/-- C3: every chunk emitted by `chunk_sentences` has word count at most
`maxW`, except a chunk that is a single input sentence whose own word
count exceeds `maxW`; and every such oversized sentence is still
emitted, alone and unsplit, as a chunk of its own (for any floor
`minW ≤ maxW`; summarizer.py uses `maxW = 300`, `minW = 75`). -/
theorem claim_C3 (maxW minW : ℕ) (ss : List Str) (hmm : minW ≤ maxW) :
    (∀ chunk ∈ chunk_sentences maxW minW ss,
      wordCount chunk ≤ maxW ∨ ∃ s ∈ ss, chunk = s ∧ maxW < wordCount s) ∧
    (∀ s ∈ ss, maxW < wordCount s → s ∈ chunk_sentences maxW minW ss) := by
  constructor
  · intro chunk hmem
    have h := chunkLoop_le_max maxW minW ss [] 0 rfl (Or.inl (Nat.zero_le _))
      chunk hmem
    simpa using h
  · intro s hmem hover
    exact chunkLoop_oversized_mem maxW minW hmm ss [] 0 s hmem hover

theorem claim_C3_witness :
    (wordCount "a b c d".toList ≤ 3 ∨
      ∃ s ∈ ["a b c d".toList], "a b c d".toList = s ∧ 3 < wordCount s) ∧
    "a b c d".toList ∈ chunk_sentences 3 2 ["a b c d".toList] :=
  ⟨(claim_C3 3 2 ["a b c d".toList] (by decide)).1 "a b c d".toList (by decide),
    (claim_C3 3 2 ["a b c d".toList] (by decide)).2 "a b c d".toList (by decide)
      (by decide)⟩

/-- C4: no chunk emitted by `chunk_sentences` has word count below
`minW`; in particular a final running chunk whose accumulated count is
below the floor is silently dropped at the end of the loop, never
emitted (second conjunct: the end-of-input step emits nothing when the
count is below `minW`). -/
theorem claim_C4 (maxW minW : ℕ) (ss : List Str) :
    (∀ chunk ∈ chunk_sentences maxW minW ss, minW ≤ wordCount chunk) ∧
    (∀ (current : List Str) (count : ℕ), count < minW →
      chunkLoop maxW minW [] current count = []) := by
  refine ⟨chunk_sentences_min maxW minW ss, ?_⟩
  intro current count h
  simp only [chunkLoop]
  rw [if_neg (by omega)]

theorem claim_C4_witness :
    2 ≤ wordCount "a b".toList ∧ chunkLoop 3 2 [] ["a".toList] 1 = [] :=
  ⟨(claim_C4 3 2 ["a b".toList]).1 "a b".toList (by decide),
    (claim_C4 3 2 ["a b".toList]).2 ["a".toList] 1 (by decide)⟩

/-- C5 counterexample: a splitter that returns no sentences on a
non-empty, above-threshold input.  summarizer.py returns the unsplit
text, but the showcase `recursive_summarize` (also cited by the claim)
has no guard for this case: it falls through to chunking and returns
the empty string, not the input text. -/
theorem claim_C5_counterexample :
    1 < wordCount "a b".toList ∧
    showcase_recursive_summarize (fun _ => []) (fun c _ _ => c) 150 30 1 5
      "a b".toList = some [] ∧
    ([] : Str) ≠ "a b".toList :=
  ⟨by decide, by decide, by decide⟩

/-- C5 (amended): on a non-empty input above the threshold for which
the splitter returns no sentences, summarizer.py's
`recursive_summarize` returns the unsplit input text unchanged, with no
generation call and no recursion; the showcase variant instead returns
the empty string (join of zero summaries), also without generation
calls or recursion. -/
theorem claim_C5 (split : Str → List Str) (model : Str → Str)
    (smodel : Str → ℕ → ℕ → Str) (threshold max_length min_length fuel : ℕ)
    (text : Str) (hbig : threshold < wordCount text)
    (hempty : split text = []) :
    recursive_summarize_trace split model threshold (fuel + 1) text =
      some (text, []) ∧
    showcase_recursive_summarize split smodel max_length min_length threshold
      (fuel + 1) text = some [] := by
  have hcomb : showcase_levelCombined split smodel max_length min_length text = [] := by
    rw [showcase_levelCombined, hempty]
    rfl
  constructor
  · rw [recursive_summarize_trace_succ, if_neg (not_le.2 hbig)]
    rw [show (split text).isEmpty = true by rw [hempty]; rfl]
    simp
  · rw [showcase_recursive_summarize_succ, if_neg (not_le.2 hbig), if_pos, hcomb]
    rw [hcomb, show wordCount ([] : Str) = 0 from rfl]
    exact Or.inr (Nat.zero_le _)

theorem claim_C5_witness :
    recursive_summarize_trace (fun _ => []) (fun s => s) 1 1 "a b".toList =
      some ("a b".toList, []) ∧
    showcase_recursive_summarize (fun _ => []) (fun c _ _ => c) 150 30 1 1
      "a b".toList = some [] :=
  claim_C5 (fun _ => []) (fun s => s) (fun c _ _ => c) 1 150 30 0 "a b".toList
    (by decide) (by decide)

/-- C6: if at some recursion level the combined per-chunk summary
splits into exactly one sentence, `recursive_summarize` returns that
combined summary immediately — the result does not depend on the
remaining fuel, so no further recursive call is made, and no bound on
its word count is assumed.  The same holds for the showcase variant
through the first disjunct of its stop test. -/
theorem claim_C6 (split : Str → List Str) (model : Str → Str)
    (smodel : Str → ℕ → ℕ → Str) (threshold max_length min_length fuel : ℕ)
    (text : Str) (hbig : threshold < wordCount text) (hne : split text ≠ [])
    (hone : (split (levelCombined split model text)).length = 1)
    (hone2 : (split (showcase_levelCombined split smodel max_length min_length
      text)).length = 1) :
    recursive_summarize_trace split model threshold (fuel + 1) text =
      some (levelCombined split model text, levelChunks split text) ∧
    showcase_recursive_summarize split smodel max_length min_length threshold
      (fuel + 1) text =
      some (showcase_levelCombined split smodel max_length min_length text) := by
  have hE : (split text).isEmpty = false := by
    cases hs : split text with
    | nil => exact absurd hs hne
    | cons a l => rfl
  constructor
  · rw [recursive_summarize_trace_succ, if_neg (not_le.2 hbig)]
    simp only [hE, Bool.false_eq_true, if_false]
    rw [if_pos hone]
  · rw [showcase_recursive_summarize_succ, if_neg (not_le.2 hbig),
      if_pos (Or.inl hone2)]

theorem claim_C6_witness :
    recursive_summarize_trace (fun t => [t]) (fun _ => "ok".toList) 1 1
        "w w w".toList =
      some (levelCombined (fun t => [t]) (fun _ => "ok".toList) "w w w".toList,
        levelChunks (fun t => [t]) "w w w".toList) ∧
    showcase_recursive_summarize (fun t => [t]) (fun _ _ _ => "ok".toList)
        150 30 1 1 "w w w".toList =
      some (showcase_levelCombined (fun t => [t]) (fun _ _ _ => "ok".toList)
        150 30 "w w w".toList) :=
  claim_C6 (fun t => [t]) (fun _ => "ok".toList) (fun _ _ _ => "ok".toList) 1
    150 30 0 "w w w".toList (by decide) (by decide) (by decide) (by decide)

/-- C7: the sentences of the chunks emitted by `chunk_sentences`, read
chunk by chunk, are groups of input sentences forming an
order-preserving subsequence of the input sentence sequence; and at a
recursion level the combined summary is the single-space join, in chunk
input order, of the per-chunk summaries of those groups. -/
theorem claim_C7 (maxW minW : ℕ) (ss : List Str) (split : Str → List Str)
    (model : Str → Str) (text : Str) :
    (∃ groups : List (List Str),
      chunk_sentences maxW minW ss = groups.map joinSep ∧
      List.Sublist groups.flatten ss) ∧
    (∃ groups : List (List Str),
      List.Sublist groups.flatten (split text) ∧
      levelCombined split model text =
        joinSep ((groups.map joinSep).map model)) := by
  refine ⟨chunk_sentences_groups maxW minW ss, ?_⟩
  obtain ⟨g, h1, h2⟩ := chunk_sentences_groups 300 75 (split text)
  refine ⟨g, h2, ?_⟩
  rw [levelCombined, levelChunks, h1]

/-- C8: if the splitter loses no words (its sentences carry at most the
text's word count, the contract of the sentence-boundary capability)
and the generation capability always returns one fixed string of fewer
than 75 words (strictly below the chunk floor `min_words`), then
`recursive_summarize` terminates — fuel `wordCount text + 1` levels is
always enough, because each recursion strictly shrinks the word
count. -/
theorem claim_C8 (split : Str → List Str) (s : Str) (threshold : ℕ)
    (hsplit : ∀ t, wcSum (split t) ≤ wordCount t)
    (hshort : wordCount s < 75) :
    ∀ (fuel : ℕ) (text : Str), wordCount text < fuel →
      ∃ r, recursive_summarize split (fun _ => s) threshold fuel text = some r := by
  intro fuel
  induction fuel with
  | zero => intro text h; exact absurd h (Nat.not_lt_zero _)
  | succ fuel ih =>
    intro text hlt
    rw [recursive_summarize_succ]
    by_cases h1 : wordCount text ≤ threshold
    · rw [if_pos h1]; exact ⟨text, rfl⟩
    · rw [if_neg h1]
      by_cases h2 : (split text).isEmpty
      · rw [if_pos h2]; exact ⟨text, rfl⟩
      · rw [if_neg h2]
        by_cases h3 : (split (levelCombined split (fun _ => s) text)).length = 1
        · rw [if_pos h3]; exact ⟨_, rfl⟩
        · rw [if_neg h3]
          by_cases h4 : threshold < wordCount (levelCombined split (fun _ => s) text)
          · rw [if_pos h4]
            apply ih
            have hwc : wordCount (levelCombined split (fun _ => s) text)
                = (levelChunks split text).length * wordCount s := by
              rw [levelCombined, wordCount_joinSep, wcSum_map_const]
            have hlen : 75 * (levelChunks split text).length ≤
                wcSum (levelChunks split text) :=
              le_wcSum_of_min (chunk_sentences_min 300 75 (split text))
            have hle : wcSum (levelChunks split text) ≤ wcSum (split text) :=
              chunk_sentences_wcSum_le 300 75 (split text)
            have hts : wcSum (split text) ≤ wordCount text := hsplit text
            rcases Nat.eq_zero_or_pos (levelChunks split text).length with hz | hp
            · rw [hwc, hz] at h4
              simp at h4
            · have hmul : (levelChunks split text).length * (wordCount s + 1) ≤
                  (levelChunks split text).length * 75 :=
                Nat.mul_le_mul_left _ (by omega)
              have hdist : (levelChunks split text).length * (wordCount s + 1) =
                  (levelChunks split text).length * wordCount s +
                    (levelChunks split text).length := by ring
              have hcomm : 75 * (levelChunks split text).length =
                  (levelChunks split text).length * 75 := Nat.mul_comm _ _
              omega
          · rw [if_neg h4]; exact ⟨_, rfl⟩

theorem claim_C8_witness :
    ∃ r, recursive_summarize (fun t => [t]) (fun _ => ['s']) 0 3 "a b".toList =
      some r :=
  claim_C8 (fun t => [t]) ['s'] 0 (fun t => by simp [wcSum]) (by decide) 3
    "a b".toList (by decide)

set_option maxRecDepth 10000

/-- Synthetic sentence made of `n` copies of the one-letter word `c`. -/
def wordsRep (c : Char) (n : ℕ) : Str := joinSep (List.replicate n [c])

/-- C9: content loss in `chunk_sentences` is not limited to the tail:
with the summarizer.py bounds (300/75) there is a sentence sequence in
which a non-final sentence (here a 70-word sentence followed by a
300-word one, so the running chunk is below the floor when the next
sentence overflows the cap) appears in no emitted chunk — none of the
emitted chunks contains any of its characters. -/
theorem claim_C9 :
    ∃ (ss : List Str) (a : Str), a ∈ ss.dropLast ∧
      ∃ m, m ∈ a ∧ ∀ chunk ∈ chunk_sentences 300 75 ss, m ∉ chunk :=
  ⟨[wordsRep 'q' 70, wordsRep 'b' 300, wordsRep 'c' 80], wordsRep 'q' 70,
    by decide, 'q', by decide, by decide⟩

/-- C10: `model_summarize` in summarizer.py ignores its `min_length`
parameter — the generation capability always receives the literal 30 —
and `recursive_summarize` invokes `model_summarize` with every argument
at its default, so the generation call for each chunk carries
`max_length = 200` and `min_length = 30` and no caller-supplied length
configuration can reach it. -/
theorem claim_C10 :
    (∀ (text_chunk : Str) (max_length min_length num_beams : ℕ)
        (temperature : ℚ) (top_k : ℕ) (top_p : ℚ),
      (model_summarize_call text_chunk max_length min_length num_beams
        temperature top_k top_p).min_length = 30) ∧
    (∀ chunk : Str, (summarizer_gen_call chunk).max_length = 200 ∧
      (summarizer_gen_call chunk).min_length = 30) ∧
    (∀ (split : Str → List Str) (gen : GenCall → Str) (threshold fuel : ℕ)
        (text : Str),
      recursive_summarize_full split gen threshold fuel text =
        recursive_summarize split (fun chunk => gen (summarizer_gen_call chunk))
          threshold fuel text) :=
  ⟨fun _ _ _ _ _ _ _ => rfl, fun _ => ⟨rfl, rfl⟩, fun _ _ _ _ _ => rfl⟩
